/-
Verification of the Signal & Portfolio Engine of the vietnam-stock-trader
repository, shallowly embedded in Lean 4.

Sources embedded:
  * portfolio_tracker.py — analyze_stock, find_buy_opportunities, auto_trade,
    update_portfolio, execute_trade (the per-tick decision engine);
  * backend/app/services/strategy.py — _score_to_signal, the SMA-crossover
    block of _calculate_technical_score, the < 50 bar guard of analyze_stock,
    and calculate_position_size.

Modelling conventions:
  * Python floats are modelled as exact rationals (ℚ).  The float value
    `NaN` that pandas produces for RSI when both rolling means are 0 is
    modelled as `none` (every comparison against NaN is false, matching the
    `Option.elim`-style rule evaluation below); the value `inf` produced by
    `gain/0` propagates to an RSI of exactly 100 and is modelled directly.
  * Prices arrive from the data collaborator in units of 1000 VND and are
    multiplied by 1000 on ingest, exactly as in the source.
  * Trade/position date strings and the formatted portions of `reason`
    strings (the source interpolates prices with `f"STOP LOSS at {...}"`)
    are carried as plain tags; no claim depends on the formatted digits.
  * I/O (vnstock fetches) is abstracted as an environment of pure oracles:
    a failed fetch in `get_current_price` is `none`, a failed/empty history
    fetch in `analyze_stock` is the empty bar list.
-/
import Mathlib

namespace VST

/-! ### Data model (portfolio_tracker.py JSON document) -/

inductive PStatus where
  | OPEN
  | CLOSED
deriving DecidableEq, Repr

structure Position where
  symbol : String
  shares : ℕ
  buy_price : ℚ
  buy_date : String
  buy_cost : ℚ
  target : ℚ
  stop_loss : ℚ
  status : PStatus
  current_price : ℚ
  current_value : ℚ
  pnl : ℚ
  pnl_percent : ℚ
  sell_price : Option ℚ := none
  sell_date : Option String := none
  final_pnl : Option ℚ := none
deriving DecidableEq, Repr

structure Trade where
  date : String
  action : String
  symbol : String
  shares : ℕ
  price : ℚ
  total : ℚ
  reason : String
deriving DecidableEq, Repr

structure HistoryEntry where
  date : String
  total_value : ℚ
  cash : ℚ
  invested : ℚ
  pnl : ℚ
  pnl_percent : ℚ
deriving DecidableEq, Repr

structure Portfolio where
  initial_budget : ℚ
  cash : ℚ
  positions : List Position
  closed_positions : List Position
  trades : List Trade
  history : List HistoryEntry
  last_updated : String
deriving DecidableEq, Repr

/-- Result dictionary of portfolio_tracker.analyze_stock. -/
structure Analysis where
  symbol : String
  price : ℚ
  rsi : Option ℚ
  sma20 : ℚ
  sma50 : ℚ
  trend : String
  macd_bullish : Bool
  score : ℤ
deriving DecidableEq, Repr

/-- The external collaborators of one tick, as pure oracles:
`price s` is the result of `get_current_price(s)` (`none` on fetch failure),
`closes s` is the close column fetched inside `analyze_stock(s)` (empty on
fetch failure), `today` is the wall-clock date string. -/
structure Env where
  price : String → Option ℚ
  closes : String → List ℚ
  today : String

/-! ### Indicator kernel of portfolio_tracker.analyze_stock

pandas semantics over a close series:
  * `close.diff()` — successive differences;
  * `rolling(n).mean().iloc[-1]` — arithmetic mean of the last `n` entries;
  * `ewm(span).mean()` — pandas default `adjust=True`: the value at index t
    is the (1−α)-geometrically-weighted average of the prefix, α = 2/(span+1).
-/

/-- Mean of the last `n` entries (value of `rolling(n).mean()` at the last
index; only used where the series has at least `n` entries). -/
def meanLast (n : ℕ) (xs : List ℚ) : ℚ :=
  (xs.drop (xs.length - n)).sum / (n : ℚ)

/-- `ewm(span=span).mean()` (adjust=True) evaluated at the last entry. -/
def emaAt (span : ℕ) (xs : List ℚ) : ℚ :=
  let α : ℚ := 2 / ((span : ℚ) + 1)
  let ws := (List.range xs.length).map (fun i => (1 - α) ^ i)
  (List.zipWith (fun w x => w * x) ws xs.reverse).sum / ws.sum

/-- The full `ewm(span=span).mean()` series. -/
def emaSeries (span : ℕ) (xs : List ℚ) : List ℚ :=
  (List.range xs.length).map (fun t => emaAt span (xs.take (t + 1)))

/-- Successive differences `close.diff()` (the leading NaN entry is replaced
by 0 by the subsequent `.where(delta > 0, 0)`, so it is dropped here and the
gain/loss series start at the first real difference). -/
def diffSeries (xs : List ℚ) : List ℚ :=
  List.zipWith (fun a b => b - a) xs xs.tail

/-- RSI(14) as computed in analyze_stock:
`100 - 100/(1 + gain/loss)` with simple rolling means of clamped diffs.
`loss = 0 ∧ gain = 0` gives float NaN (modelled `none`);
`loss = 0 ∧ gain > 0` gives `gain/0 = inf`, hence RSI = 100. -/
def rsiLast (closes : List ℚ) : Option ℚ :=
  let ds := diffSeries closes
  let g := meanLast 14 (ds.map (fun d => max d 0))
  let l := meanLast 14 (ds.map (fun d => max (-d) 0))
  if l = 0 then (if g = 0 then none else some 100)
  else some (100 - 100 / (1 + g / l))

/-- Trend classification (portfolio_tracker.py lines 133-139); Python's
chained `price > sma20 > sma50` is `(price > sma20) and (sma20 > sma50)`. -/
def trackerTrend (price sma20 sma50 : ℚ) : String :=
  if price > sma20 ∧ sma20 > sma50 then "UPTREND"
  else if price < sma20 ∧ sma20 < sma50 then "DOWNTREND"
  else "SIDEWAYS"

/-- Score accumulation (portfolio_tracker.py lines 141-156).  A NaN RSI
(`none`) fails both comparisons, firing no RSI rule. -/
def trackerScore (trend : String) (rsi : Option ℚ) (macd_bullish : Bool)
    (price sma20 : ℚ) : ℤ :=
  let s1 : ℤ := if trend = "UPTREND" then 30
    else if trend = "DOWNTREND" then -30 else 0
  let s2 : ℤ := s1 + (match rsi with
    | none => 0
    | some r => if r < 30 then 20 else if r > 70 then -20 else 0)
  let s3 : ℤ := s2 + (if macd_bullish then 20 else -10)
  s3 + (if price > sma20 then 10 else 0)

/-- portfolio_tracker.analyze_stock on the fetched close column.  Returns
`none` when the frame is empty or has fewer than 20 rows; below 50 rows
`sma50` is substituted by `sma20`.  Source closes are in units of 1000 VND,
so `price`, `sma20`, `sma50` are scaled by 1000. -/
def trackerAnalyze (symbol : String) (closes : List ℚ) : Option Analysis :=
  if closes.length < 20 then none
  else
    let price := closes.getLast?.getD 0 * 1000
    let rsi := rsiLast closes
    let sma20 := meanLast 20 closes * 1000
    let sma50 := if 50 ≤ closes.length then meanLast 50 closes * 1000 else sma20
    let macd := List.zipWith (fun a b => a - b)
      (emaSeries 12 closes) (emaSeries 26 closes)
    let sig := emaSeries 9 macd
    let mb := decide (sig.getLast?.getD 0 < macd.getLast?.getD 0)
    let trend := trackerTrend price sma20 sma50
    some ⟨symbol, price, rsi, sma20, sma50, trend, mb,
      trackerScore trend rsi mb price sma20⟩

/-! ### strategy.py fragments -/

inductive SignalStrength where
  | STRONG_BUY
  | BUY
  | HOLD
  | SELL
  | STRONG_SELL
deriving DecidableEq, Repr

/-- strategy.py _score_to_signal (lines 345-356). -/
def scoreToSignal (score : ℚ) : SignalStrength :=
  if score ≥ 50 then .STRONG_BUY
  else if score ≥ 20 then .BUY
  else if score ≤ -50 then .STRONG_SELL
  else if score ≤ -20 then .SELL
  else .HOLD

/-- The SMA-crossover block of strategy.py _calculate_technical_score
(lines 194-211), for a snapshot where SMA_20 and SMA_50 are present and
not NaN: ±15 on the 20/50 crossover, then ±5 on price vs SMA_20. -/
def smaCrossoverScore (price sma20 sma50 : ℚ) : ℚ :=
  (if sma20 > sma50 then 15 else -15) + (if price > sma20 then 5 else -5)

/-- The analyzability guard of strategy.py analyze_stock (lines 87-92):
an empty or < 50-bar price frame yields no signal.  The signal built past
the guard depends on the market-data/news/fundamental collaborators and is
abstracted as `mk`. -/
def backendAnalyzeStock {σ : Type} (bars : List ℚ) (mk : List ℚ → σ) :
    Option σ :=
  if bars.length < 50 then none else some (mk bars)

/-- Python `int(q)` — truncation toward zero. -/
def ratTrunc (q : ℚ) : ℤ :=
  if q < 0 then ⌈q⌉ else ⌊q⌋

/-- strategy.py calculate_position_size (lines 402-427).  Python `//` is
floor division (`Int.fdiv`). -/
def calculatePositionSize (available_cash stock_price : ℚ)
    (num_stocks_to_buy : ℕ) : ℤ :=
  let budget_per_position := available_cash / (num_stocks_to_buy : ℚ)
  let lot_size : ℤ := 100
  let shares0 := ratTrunc (budget_per_position / stock_price)
  let shares := (Int.fdiv shares0 lot_size) * lot_size
  if shares ≥ lot_size then max shares lot_size else 0

/-! ### Decision engine: one tick of portfolio_tracker.auto_trade -/

/-- Watchlist of stocks scanned for entries (portfolio_tracker.py line 172). -/
def WATCHLIST : List String :=
  ["GAS", "FPT", "VNM", "MWG", "HPG", "VCB", "TCB", "VHM", "VIC", "MSN"]

/-- Mark-to-market of one open position (portfolio_tracker.py lines 214-221,
duplicated verbatim at lines 377-386): on a failed fetch the prior
`current_price` is carried forward; `current_value`, `pnl`, `pnl_percent`
are recomputed from the (possibly carried) price. -/
def markPosition (env : Env) (pos : Position) : Position :=
  let cp := (env.price pos.symbol).getD pos.current_price
  let cv := cp * (pos.shares : ℚ)
  { pos with
      current_price := cp
      current_value := cv
      pnl := cv - pos.buy_cost
      pnl_percent := (cv - pos.buy_cost) / pos.buy_cost * 100 }

/-- What the exit loop body does to a single position. -/
inductive ExitOutcome where
  | skip (pos : Position)
  | hold (m : Position)
  | sell (c : Position) (t : Trade)
deriving DecidableEq, Repr

/-- The exit-phase loop body (portfolio_tracker.py lines 210-269): skip
non-OPEN positions; mark to market; stop-loss checked first (inclusive),
then target (inclusive); otherwise hold.  The source interpolates the
trigger price into the reason string; the tag prefix is kept here. -/
def exitOne (env : Env) (pos : Position) : ExitOutcome :=
  if pos.status ≠ PStatus.OPEN then .skip pos
  else
    let m := markPosition env pos
    if m.current_price ≤ m.stop_loss then
      .sell
        { m with
            status := PStatus.CLOSED
            sell_price := some m.current_price
            sell_date := some env.today
            final_pnl := some (m.current_price * (m.shares : ℚ) - m.buy_cost) }
        ⟨env.today, "SELL", m.symbol, m.shares, m.current_price,
          m.current_price * (m.shares : ℚ), "STOP LOSS"⟩
    else if m.current_price ≥ m.target then
      .sell
        { m with
            status := PStatus.CLOSED
            sell_price := some m.current_price
            sell_date := some env.today
            final_pnl := some (m.current_price * (m.shares : ℚ) - m.buy_cost) }
        ⟨env.today, "SELL", m.symbol, m.shares, m.current_price,
          m.current_price * (m.shares : ℚ), "TARGET REACHED"⟩
    else .hold m

/-- Mutable state threaded through the exit loop: cash, the positions list
(the source mutates entries in place; closed entries are removed by the
filter at line 272 afterwards), closed_positions and trades. -/
structure ExitState where
  cash : ℚ
  newPositions : List Position
  closed : List Position
  trades : List Trade
deriving DecidableEq, Repr

def exitStep (env : Env) (s : ExitState) (pos : Position) : ExitState :=
  match exitOne env pos with
  | .skip q => { s with newPositions := s.newPositions ++ [q] }
  | .hold m => { s with newPositions := s.newPositions ++ [m] }
  | .sell c t =>
      { cash := s.cash + t.total
        newPositions := s.newPositions ++ [c]
        closed := s.closed ++ [c]
        trades := s.trades ++ [t] }

/-- Phases 1-2 of auto_trade (lines 210-272): mark to market, execute exit
rules with immediate side effects, then keep only still-OPEN positions. -/
def exitPhase (env : Env) (p : Portfolio) : Portfolio :=
  let s := p.positions.foldl (exitStep env)
    ⟨p.cash, [], p.closed_positions, p.trades⟩
  { p with
      cash := s.cash
      positions := s.newPositions.filter (fun q => q.status = PStatus.OPEN)
      closed_positions := s.closed
      trades := s.trades }

/-- The filterMap inside find_buy_opportunities (lines 179-190): analyzable
watchlist symbols whose minimum lot is affordable and whose score is ≥ 30,
in watchlist order. -/
def buyCandidates (env : Env) (cash_available : ℚ) : List Analysis :=
  WATCHLIST.filterMap (fun s =>
    match trackerAnalyze s (env.closes s) with
    | none => none
    | some a =>
        if a.price * 100 ≤ cash_available ∧ a.score ≥ 30 then some a else none)

/-- find_buy_opportunities (lines 174-194): candidates sorted by score
descending.  Python's `list.sort` is stable, which `List.mergeSort` with
`le x y := y.score ≤ x.score` reproduces exactly. -/
def findBuyOpportunities (env : Env) (cash_available : ℚ) : List Analysis :=
  (buyCandidates env cash_available).mergeSort
    (fun x y => decide (y.score ≤ x.score))

/-- The position opened by the entry phase (lines 291-304): a fixed minimum
lot of 100 shares, +10% target, -5% stop. -/
def newBuyPosition (a : Analysis) (today : String) : Position :=
  { symbol := a.symbol
    shares := 100
    buy_price := a.price
    buy_date := today
    buy_cost := a.price * 100
    target := a.price * (110 / 100)
    stop_loss := a.price * (95 / 100)
    status := PStatus.OPEN
    current_price := a.price
    current_value := a.price * 100
    pnl := 0
    pnl_percent := 0 }

/-- Phase 3 of auto_trade (lines 274-319): entry scan, gated on
cash ≥ 5,000,000; the top-ranked candidate not already open is bought —
exactly one minimum lot — iff its cost fits in cash.  The BUY trade reason
interpolates score/trend/RSI in the source; a tag is kept here. -/
def buyPhase (env : Env) (p : Portfolio) : Portfolio :=
  let cash := p.cash
  let openSymbols :=
    (p.positions.filter (fun q => q.status = PStatus.OPEN)).map Position.symbol
  if cash ≥ 5000000 then
    let opportunities := (findBuyOpportunities env cash).filter
      (fun o => o.symbol ∉ openSymbols)
    match opportunities with
    | [] => p
    | best :: _ =>
        let cost := best.price * 100
        if cost ≤ cash then
          { p with
              positions := p.positions ++ [newBuyPosition best env.today]
              cash := p.cash - cost
              trades := p.trades ++
                [⟨env.today, "BUY", best.symbol, 100, best.price, cost,
                  "Score"⟩] }
        else p
  else p

/-- Phase 4 of auto_trade (lines 321-341): total value, history append,
last_updated. -/
def historyPhase (env : Env) (p : Portfolio) : Portfolio :=
  let total_value := p.cash +
    ((p.positions.filter (fun q => q.status = PStatus.OPEN)).map
      Position.current_value).sum
  let total_pnl := total_value - p.initial_budget
  { p with
      history := p.history ++
        [⟨env.today, total_value, p.cash, total_value - p.cash, total_pnl,
          total_pnl / p.initial_budget * 100⟩]
      last_updated := env.today }

/-- One full tick: auto_trade (portfolio_tracker.py lines 196-356), minus
console printing, dashboard rendering and JSON persistence. -/
def autoTrade (env : Env) (p : Portfolio) : Portfolio :=
  historyPhase env (buyPhase env (exitPhase env p))

/-- A sequence of ticks, each with its own oracle responses. -/
def runTicks (envs : List Env) (p : Portfolio) : Portfolio :=
  envs.foldl (fun q e => autoTrade e q) p

/-- update_portfolio (lines 358-453): mark open positions to market, append
one history entry, set last_updated.  Cash, trades, closed_positions and the
open/closed partition are untouched; the SELL signals it computes are only
printed/returned, never applied. -/
def updatePortfolio (env : Env) (p : Portfolio) : Portfolio :=
  let positions := p.positions.map (fun pos =>
    if pos.status = PStatus.OPEN then markPosition env pos else pos)
  let total_value := p.cash +
    ((positions.filter (fun q => q.status = PStatus.OPEN)).map
      Position.current_value).sum
  let total_pnl := total_value - p.initial_budget
  { p with
      positions := positions
      history := p.history ++
        [⟨env.today, total_value, p.cash, total_value - p.cash, total_pnl,
          total_pnl / p.initial_budget * 100⟩]
      last_updated := env.today }

/-! ### Characterization of the exit-phase fold -/

/-- The position an exit outcome leaves in the (pre-filter) positions list. -/
def outcomePos : ExitOutcome → Position
  | .skip q => q
  | .hold m => m
  | .sell c _ => c

/-- Positions list after the exit loop, before the OPEN filter. -/
def exitPositionsOf (env : Env) (l : List Position) : List Position :=
  l.map (fun pos => outcomePos (exitOne env pos))

/-- Cash credits produced by the exit loop, in loop order. -/
def exitCreditsOf (env : Env) (l : List Position) : List ℚ :=
  l.filterMap (fun pos => match exitOne env pos with
    | .sell _ t => some t.total
    | _ => none)

/-- Closed-position records appended by the exit loop, in loop order. -/
def exitClosedOf (env : Env) (l : List Position) : List Position :=
  l.filterMap (fun pos => match exitOne env pos with
    | .sell c _ => some c
    | _ => none)

/-- SELL trade entries appended by the exit loop, in loop order. -/
def exitTradesOf (env : Env) (l : List Position) : List Trade :=
  l.filterMap (fun pos => match exitOne env pos with
    | .sell _ t => some t
    | _ => none)

theorem markPosition_symbol (env : Env) (pos : Position) :
    (markPosition env pos).symbol = pos.symbol := rfl

theorem markPosition_shares (env : Env) (pos : Position) :
    (markPosition env pos).shares = pos.shares := rfl

theorem markPosition_status (env : Env) (pos : Position) :
    (markPosition env pos).status = pos.status := rfl

theorem markPosition_stop_loss (env : Env) (pos : Position) :
    (markPosition env pos).stop_loss = pos.stop_loss := rfl

theorem markPosition_target (env : Env) (pos : Position) :
    (markPosition env pos).target = pos.target := rfl

theorem markPosition_buy_cost (env : Env) (pos : Position) :
    (markPosition env pos).buy_cost = pos.buy_cost := rfl

theorem markPosition_current_price (env : Env) (pos : Position) :
    (markPosition env pos).current_price =
      (env.price pos.symbol).getD pos.current_price := rfl

theorem exitFold_eq (env : Env) (l : List Position) : ∀ s : ExitState,
    l.foldl (exitStep env) s =
      ⟨s.cash + (exitCreditsOf env l).sum,
       s.newPositions ++ exitPositionsOf env l,
       s.closed ++ exitClosedOf env l,
       s.trades ++ exitTradesOf env l⟩ := by
  induction l with
  | nil =>
      intro s
      simp [exitCreditsOf, exitPositionsOf, exitClosedOf, exitTradesOf]
  | cons pos rest ih =>
      intro s
      rw [List.foldl_cons, ih]
      cases h : exitOne env pos <;>
        simp [exitStep, h, exitCreditsOf, exitPositionsOf, exitClosedOf,
          exitTradesOf, outcomePos, add_assoc]

theorem exitPhase_eq (env : Env) (p : Portfolio) :
    exitPhase env p =
      { p with
          cash := p.cash + (exitCreditsOf env p.positions).sum
          positions := (exitPositionsOf env p.positions).filter
            (fun q => q.status = PStatus.OPEN)
          closed_positions := p.closed_positions ++ exitClosedOf env p.positions
          trades := p.trades ++ exitTradesOf env p.positions } := by
  unfold exitPhase
  rw [exitFold_eq]
  rfl

theorem outcomePos_symbol (env : Env) (pos : Position) :
    (outcomePos (exitOne env pos)).symbol = pos.symbol := by
  unfold exitOne
  split
  · rfl
  · dsimp only
    split
    · rfl
    · split <;> rfl

/-- Inversion of a `sell` outcome: it can only arise from an OPEN position
whose marked price hit the inclusive stop or target boundary, and the
closed record and trade have exactly the fields written at source lines
226-240 / 247-261. -/
theorem exitOne_sell_inv {env : Env} {pos : Position} {c : Position}
    {t : Trade} (h : exitOne env pos = .sell c t) :
    pos.status = PStatus.OPEN ∧
    (let m := markPosition env pos
     (m.current_price ≤ pos.stop_loss ∨ m.current_price ≥ pos.target) ∧
     c = { m with
            status := PStatus.CLOSED
            sell_price := some m.current_price
            sell_date := some env.today
            final_pnl := some (m.current_price * (m.shares : ℚ) - m.buy_cost) } ∧
     t = ⟨env.today, "SELL", m.symbol, m.shares, m.current_price,
          m.current_price * (m.shares : ℚ),
          if m.current_price ≤ pos.stop_loss then "STOP LOSS"
          else "TARGET REACHED"⟩) := by
  unfold exitOne at h
  split at h
  · exact absurd h (by simp)
  · next hst =>
    rw [not_not] at hst
    refine ⟨hst, ?_⟩
    dsimp only at h ⊢
    split at h
    · next hstop =>
        obtain ⟨rfl, rfl⟩ := ExitOutcome.sell.inj h
        exact ⟨Or.inl hstop, rfl, by simp [markPosition_stop_loss] at hstop ⊢; rw [if_pos hstop]⟩
    · split at h
      · next hnstop htgt =>
          obtain ⟨rfl, rfl⟩ := ExitOutcome.sell.inj h
          rw [markPosition_stop_loss] at hnstop
          exact ⟨Or.inr htgt, rfl, by rw [if_neg hnstop]⟩
      · exact absurd h (by simp)

/-- Inversion of a `hold` outcome. -/
theorem exitOne_hold_inv {env : Env} {pos : Position} {m : Position}
    (h : exitOne env pos = .hold m) :
    pos.status = PStatus.OPEN ∧ m = markPosition env pos ∧
    ¬ (m.current_price ≤ pos.stop_loss ∨ m.current_price ≥ pos.target) := by
  unfold exitOne at h
  split at h
  · exact absurd h (by simp)
  · next hst =>
    rw [not_not] at hst
    dsimp only at h
    split at h
    · exact absurd h (by simp)
    · split at h
      · exact absurd h (by simp)
      · next h1 h2 =>
          obtain rfl := (ExitOutcome.hold.inj h).symm
          rw [markPosition_stop_loss] at h1
          exact ⟨hst, rfl, by push_neg; exact ⟨lt_of_not_le h1, lt_of_not_le h2⟩⟩

/-- A `skip` outcome only arises from a non-OPEN position. -/
theorem exitOne_skip_inv {env : Env} {pos : Position} {q : Position}
    (h : exitOne env pos = .skip q) :
    pos.status ≠ PStatus.OPEN ∧ q = pos := by
  unfold exitOne at h
  split at h
  · next hst => exact ⟨hst, (ExitOutcome.skip.inj h).symm⟩
  · dsimp only at h
    split at h
    · exact absurd h (by simp)
    · split at h <;> exact absurd h (by simp)

/-! ### Characterization of the buy phase -/

/-- The trade appended by a successful entry. -/
def newBuyTrade (a : Analysis) (today : String) : Trade :=
  ⟨today, "BUY", a.symbol, 100, a.price, a.price * 100, "Score"⟩

theorem buyPhase_spec (env : Env) (p : Portfolio) :
    buyPhase env p = p ∨
    ∃ best, best ∈ buyCandidates env p.cash ∧
      best.symbol ∉ ((p.positions.filter
        (fun q => q.status = PStatus.OPEN)).map Position.symbol) ∧
      best.price * 100 ≤ p.cash ∧ p.cash ≥ 5000000 ∧
      buyPhase env p = { p with
        positions := p.positions ++ [newBuyPosition best env.today]
        cash := p.cash - best.price * 100
        trades := p.trades ++ [newBuyTrade best env.today] } := by
  unfold buyPhase
  dsimp only
  split
  · next hcash =>
    split
    · next heq => exact Or.inl rfl
    · next best rest heq =>
      split
      · next hcost =>
        refine Or.inr ⟨best, ?_, ?_, hcost, hcash, rfl⟩
        · have : best ∈ (findBuyOpportunities env p.cash).filter
              (fun o => o.symbol ∉ ((p.positions.filter
                (fun q => q.status = PStatus.OPEN)).map Position.symbol)) := by
            rw [heq]; exact List.mem_cons_self _ _
          have h1 := (List.mem_filter.mp this).1
          rw [findBuyOpportunities] at h1
          exact List.mem_mergeSort.mp h1
        · have : best ∈ (findBuyOpportunities env p.cash).filter
              (fun o => o.symbol ∉ ((p.positions.filter
                (fun q => q.status = PStatus.OPEN)).map Position.symbol)) := by
            rw [heq]; exact List.mem_cons_self _ _
          simpa using (List.mem_filter.mp this).2
      · exact Or.inl rfl
  · exact Or.inl rfl

theorem buyPhase_history (env : Env) (p : Portfolio) :
    (buyPhase env p).history = p.history := by
  rcases buyPhase_spec env p with h | ⟨best, _, _, _, _, h⟩ <;> rw [h]

theorem buyPhase_closed (env : Env) (p : Portfolio) :
    (buyPhase env p).closed_positions = p.closed_positions := by
  rcases buyPhase_spec env p with h | ⟨best, _, _, _, _, h⟩ <;> rw [h]

/-! ### The tick invariants (claim C1) -/

/-- A well-formed entry of `positions`: OPEN status, a positive share count
that is a whole number of 100-share lots, and a non-negative marked price. -/
def goodPosition (pos : Position) : Prop :=
  pos.status = PStatus.OPEN ∧ 0 < pos.shares ∧ pos.shares % 100 = 0 ∧
    0 ≤ pos.current_price

/-- The portfolio invariants of spec §3/§8.1: non-negative cash, every open
position a positive multiple of the 100-share lot with a non-negative
carried price, and pairwise-distinct symbols. -/
def validPortfolio (p : Portfolio) : Prop :=
  0 ≤ p.cash ∧ (∀ pos ∈ p.positions, goodPosition pos) ∧
    (p.positions.map Position.symbol).Nodup

/-- The data collaborator returns non-negative prices (prices of Vietnamese
equities; `get_current_price` and the close column both). -/
def envOk (env : Env) : Prop :=
  (∀ s q, env.price s = some q → 0 ≤ q) ∧
    (∀ s, ∀ c ∈ env.closes s, 0 ≤ c)

theorem markPosition_current_price_nonneg {env : Env} {pos : Position}
    (he : envOk env) (hpos : 0 ≤ pos.current_price) :
    0 ≤ (markPosition env pos).current_price := by
  rw [markPosition_current_price]
  cases h : env.price pos.symbol with
  | none => simpa using hpos
  | some q => simpa using he.1 _ q h

theorem trackerAnalyze_price {s : String} {closes : List ℚ} {a : Analysis}
    (h : trackerAnalyze s closes = some a) :
    a.price = closes.getLast?.getD 0 * 1000 := by
  unfold trackerAnalyze at h
  split at h
  · exact absurd h (by simp)
  · obtain rfl := (Option.some.inj h).symm
    rfl

theorem buyCandidates_price_nonneg {env : Env} {cash : ℚ} {a : Analysis}
    (he : envOk env) (ha : a ∈ buyCandidates env cash) : 0 ≤ a.price := by
  unfold buyCandidates at ha
  obtain ⟨s, _, hmatch⟩ := List.mem_filterMap.mp ha
  cases htr : trackerAnalyze s (env.closes s) with
  | none => rw [htr] at hmatch; simp at hmatch
  | some a' =>
      rw [htr] at hmatch
      dsimp only at hmatch
      split at hmatch
      · obtain rfl := Option.some.inj hmatch
        rw [trackerAnalyze_price htr]
        have : 0 ≤ (env.closes s).getLast?.getD 0 := by
          cases hg : (env.closes s).getLast? with
          | none => simp
          | some c =>
              simpa using he.2 s c (List.mem_of_getLast?_eq_some hg)
        positivity
      · simp at hmatch

theorem exitPhase_valid {env : Env} {p : Portfolio} (he : envOk env)
    (hv : validPortfolio p) : validPortfolio (exitPhase env p) := by
  obtain ⟨hcash, hgood, hnodup⟩ := hv
  rw [exitPhase_eq]
  refine ⟨?_, ?_, ?_⟩
  · refine add_nonneg hcash (List.sum_nonneg ?_)
    intro x hx
    obtain ⟨pos, hpos, hm⟩ := List.mem_filterMap.mp hx
    cases hout : exitOne env pos with
    | skip q => rw [hout] at hm; simp at hm
    | hold m => rw [hout] at hm; simp at hm
    | sell c t =>
        rw [hout] at hm
        obtain rfl := Option.some.inj hm
        obtain ⟨_, _, _, rfl⟩ := exitOne_sell_inv hout
        have := markPosition_current_price_nonneg he (hgood pos hpos).2.2.2
        exact mul_nonneg this (by positivity)
  · intro q hq
    rw [List.mem_filter] at hq
    obtain ⟨hmem, hstat⟩ := hq
    obtain ⟨pos, hpos, rfl⟩ := List.mem_map.mp hmem
    cases hout : exitOne env pos with
    | skip q' =>
        obtain ⟨hne, rfl⟩ := exitOne_skip_inv hout
        rw [hout] at hstat
        exact absurd (by simpa [outcomePos] using hstat) hne
    | hold m =>
        obtain ⟨hop, rfl, _⟩ := exitOne_hold_inv hout
        obtain ⟨_, hs1, hs2, hcp⟩ := hgood pos hpos
        exact ⟨by simpa [outcomePos, markPosition_status] using hop,
          by simpa [outcomePos, markPosition_shares] using hs1,
          by simpa [outcomePos, markPosition_shares] using hs2,
          by simpa [outcomePos] using markPosition_current_price_nonneg he hcp⟩
    | sell c t =>
        obtain ⟨_, _, rfl, _⟩ := exitOne_sell_inv hout
        rw [hout] at hstat
        simp [outcomePos] at hstat
  · have h1 : List.Sublist
        (((exitPositionsOf env p.positions).filter
          (fun q => q.status = PStatus.OPEN)).map Position.symbol)
        ((exitPositionsOf env p.positions).map Position.symbol) :=
      (List.filter_sublist _).map _
    have h2 : (exitPositionsOf env p.positions).map Position.symbol =
        p.positions.map Position.symbol := by
      unfold exitPositionsOf
      rw [List.map_map]
      exact List.map_congr_left (fun pos _ => outcomePos_symbol env pos)
    exact hnodup.sublist (h2 ▸ h1)

theorem buyPhase_valid {env : Env} {p : Portfolio} (he : envOk env)
    (hv : validPortfolio p) : validPortfolio (buyPhase env p) := by
  obtain ⟨hcash, hgood, hnodup⟩ := hv
  rcases buyPhase_spec env p with h | ⟨best, hcand, hnotin, hcost, _, h⟩
  · rw [h]; exact ⟨hcash, hgood, hnodup⟩
  · rw [h]
    have hopen : p.positions.filter (fun q => q.status = PStatus.OPEN) =
        p.positions :=
      List.filter_eq_self.mpr (fun pos hpos => by
        simpa using (hgood pos hpos).1)
    rw [hopen] at hnotin
    refine ⟨by simpa using hcost, ?_, ?_⟩
    · intro pos hpos
      rcases List.mem_append.mp hpos with hold | hnew
      · exact hgood pos hold
      · obtain rfl := List.mem_singleton.mp hnew
        exact ⟨rfl, by norm_num [newBuyPosition], by norm_num [newBuyPosition],
          by simpa [newBuyPosition] using buyCandidates_price_nonneg he hcand⟩
    · rw [List.map_append]
      simp only [List.map_cons, List.map_nil, newBuyPosition]
      rw [List.nodup_append]
      exact ⟨hnodup, List.nodup_singleton _, by
        intro x hx hx'
        obtain rfl := List.mem_singleton.mp hx'
        exact hnotin hx⟩

theorem historyPhase_valid {env : Env} {p : Portfolio}
    (hv : validPortfolio p) : validPortfolio (historyPhase env p) := hv

theorem autoTrade_valid {env : Env} {p : Portfolio} (he : envOk env)
    (hv : validPortfolio p) : validPortfolio (autoTrade env p) :=
  historyPhase_valid (buyPhase_valid he (exitPhase_valid he hv))

/-! ### History bookkeeping -/

/-- `total_value = cash + Σ open current_value` as computed at source lines
322-325 (and 369/388). -/
def totalValue (p : Portfolio) : ℚ :=
  p.cash + ((p.positions.filter
    (fun q => q.status = PStatus.OPEN)).map Position.current_value).sum

/-- The history record appended at the end of a tick (lines 332-339). -/
def tickHistoryEntry (env : Env) (q : Portfolio) : HistoryEntry :=
  ⟨env.today, totalValue q, q.cash, totalValue q - q.cash,
   totalValue q - q.initial_budget,
   (totalValue q - q.initial_budget) / q.initial_budget * 100⟩

theorem historyPhase_history (env : Env) (q : Portfolio) :
    (historyPhase env q).history = q.history ++ [tickHistoryEntry env q] := rfl

theorem exitPhase_history (env : Env) (p : Portfolio) :
    (exitPhase env p).history = p.history := rfl

theorem autoTrade_history (env : Env) (p : Portfolio) :
    (autoTrade env p).history =
      p.history ++ [tickHistoryEntry env (buyPhase env (exitPhase env p))] := by
  show (historyPhase env _).history = _
  rw [historyPhase_history, buyPhase_history, exitPhase_history]

/-! ### Claim theorems -/

/-- C1.  For every sequence of ticks (auto_trade invocations) from a valid
initial portfolio — given the data collaborator only ever reports
non-negative prices — after each tick the portfolio satisfies: cash is
non-negative, every open position has a share count that is a positive
multiple of 100 (and a non-negative carried price), and no two open
positions share a symbol. -/
theorem auto_trade_preserves_invariants (envs : List Env) (p : Portfolio)
    (he : ∀ e ∈ envs, envOk e) (hv : validPortfolio p) :
    ∀ k : ℕ, validPortfolio (runTicks (envs.take k) p) := by
  intro k
  have hsub : ∀ e ∈ envs.take k, envOk e :=
    fun e hmem => he e (List.take_subset k envs hmem)
  clear he
  generalize envs.take k = l at hsub
  induction l generalizing p with
  | nil => simpa [runTicks] using hv
  | cons e es ih =>
      have hstep : runTicks (e :: es) p = runTicks es (autoTrade e p) := rfl
      rw [hstep]
      exact ih (autoTrade e p)
        (autoTrade_valid (hsub e (List.mem_cons_self _ _)) hv)
        (fun e' h' => hsub e' (List.mem_cons_of_mem _ h'))

/-- C1 witness: one tick from a concrete valid portfolio under an oracle
that always fails (hence trivially reports only non-negative prices). -/
theorem auto_trade_preserves_invariants_witness :
    validPortfolio (runTicks ([(⟨fun _ => none, fun _ => [], "2026-01-02"⟩ :
      Env)].take 1)
      ⟨7500000, 450000,
        [⟨"GAS", 100, 70500, "2025-12-27", 7050000, 77550, 66975,
          PStatus.OPEN, 70500, 7050000, 0, 0, none, none, none⟩],
        [], [], [], "2025-12-27"⟩) := by
  apply auto_trade_preserves_invariants
  · intro e hmem
    obtain rfl := List.mem_singleton.mp hmem
    exact ⟨fun s q h => by simp at h, fun s c h => by simp at h⟩
  · refine ⟨by norm_num, ?_, by simp⟩
    intro pos hpos
    obtain rfl := List.mem_singleton.mp hpos
    exact ⟨rfl, by norm_num, by norm_num, by norm_num⟩

/-- C2.  After every tick the `total_value` recorded in the newly appended
history entry equals cash plus the sum of `current_value` over all open
positions of the end-of-tick portfolio. -/
theorem auto_trade_history_records_total_value (env : Env) (p : Portfolio) :
    ∃ h, (autoTrade env p).history = p.history ++ [h] ∧
      h.total_value = (autoTrade env p).cash +
        (((autoTrade env p).positions.filter
          (fun q => q.status = PStatus.OPEN)).map Position.current_value).sum :=
  ⟨tickHistoryEntry env (buyPhase env (exitPhase env p)),
    autoTrade_history env p, rfl⟩

/-- C3.  In the exit phase an OPEN position SELLs iff its marked price is at
or below the stop-loss or at or above the target (stop-loss checked first,
both boundaries inclusive); the SELL closes the position with
`sell_price = current_price`, `final_pnl = current_price·shares − buy_cost`,
credits cash by `current_price·shares`, appends exactly one SELL trade
entry, and moves the record to `closed_positions` (out of `positions`). -/
theorem exit_rules_spec (env : Env) (pos : Position)
    (hopen : pos.status = PStatus.OPEN) :
    (¬ ((markPosition env pos).current_price ≤ pos.stop_loss ∨
        (markPosition env pos).current_price ≥ pos.target) →
      exitOne env pos = .hold (markPosition env pos)) ∧
    (((markPosition env pos).current_price ≤ pos.stop_loss ∨
        (markPosition env pos).current_price ≥ pos.target) →
      ∃ c t, exitOne env pos = .sell c t ∧
        c.status = PStatus.CLOSED ∧ c.symbol = pos.symbol ∧
        c.sell_price = some (markPosition env pos).current_price ∧
        c.final_pnl = some ((markPosition env pos).current_price *
          (pos.shares : ℚ) - pos.buy_cost) ∧
        t.action = "SELL" ∧ t.symbol = pos.symbol ∧ t.shares = pos.shares ∧
        t.price = (markPosition env pos).current_price ∧
        t.total = (markPosition env pos).current_price * (pos.shares : ℚ) ∧
        t.reason = (if (markPosition env pos).current_price ≤ pos.stop_loss
          then "STOP LOSS" else "TARGET REACHED") ∧
        ∀ (p : Portfolio) (l₁ l₂ : List Position),
          p.positions = l₁ ++ pos :: l₂ →
          (exitPhase env p).cash = p.cash +
            ((exitCreditsOf env l₁).sum + t.total +
              (exitCreditsOf env l₂).sum) ∧
          (exitPhase env p).trades = p.trades ++
            (exitTradesOf env l₁ ++ t :: exitTradesOf env l₂) ∧
          (exitPhase env p).closed_positions = p.closed_positions ++
            (exitClosedOf env l₁ ++ c :: exitClosedOf env l₂) ∧
          c ∉ (exitPhase env p).positions) := by
  constructor
  · intro hno
    cases hout : exitOne env pos with
    | skip q => exact absurd hopen (exitOne_skip_inv hout).1
    | hold m => obtain ⟨-, rfl, -⟩ := exitOne_hold_inv hout; rfl
    | sell c t => exact absurd (exitOne_sell_inv hout).2.1 hno
  · intro hcond
    cases hout : exitOne env pos with
    | skip q => exact absurd hopen (exitOne_skip_inv hout).1
    | hold m =>
        obtain ⟨-, rfl, hno⟩ := exitOne_hold_inv hout
        exact absurd hcond hno
    | sell c t =>
        obtain ⟨-, -, hc, ht⟩ := exitOne_sell_inv hout
        refine ⟨c, t, rfl, ?_, ?_, ?_, ?_, ?_, ?_, ?_, ?_, ?_, ?_, ?_⟩
        · rw [hc]
        · rw [hc]; exact markPosition_symbol env pos
        · rw [hc]
        · rw [hc, markPosition_shares, markPosition_buy_cost]
        · rw [ht]
        · rw [ht]; exact markPosition_symbol env pos
        · rw [ht]; exact markPosition_shares env pos
        · rw [ht]
        · rw [ht, markPosition_shares]
        · rw [ht]
        · intro p l₁ l₂ hsplit
          rw [exitPhase_eq]
          have hcredits : exitCreditsOf env p.positions =
              exitCreditsOf env l₁ ++ t.total :: exitCreditsOf env l₂ := by
            rw [hsplit]; unfold exitCreditsOf
            rw [List.filterMap_append, List.filterMap_cons]
            simp [hout]
          have htrades : exitTradesOf env p.positions =
              exitTradesOf env l₁ ++ t :: exitTradesOf env l₂ := by
            rw [hsplit]; unfold exitTradesOf
            rw [List.filterMap_append, List.filterMap_cons]
            simp [hout]
          have hclosed : exitClosedOf env p.positions =
              exitClosedOf env l₁ ++ c :: exitClosedOf env l₂ := by
            rw [hsplit]; unfold exitClosedOf
            rw [List.filterMap_append, List.filterMap_cons]
            simp [hout]
          refine ⟨?_, ?_, ?_, ?_⟩
          · rw [hcredits, List.sum_append, List.sum_cons]; ring
          · rw [htrades]
          · rw [hclosed]
          · intro hmem
            have := (List.mem_filter.mp hmem).2
            rw [hc] at this
            simp at this

/-- C3 witness: a concrete OPEN position whose fetched price 66000 is below
its stop-loss 66975 SELLs via the claim theorem. -/
theorem exit_rules_spec_witness :
    ∃ c t, exitOne (⟨fun _ => some 66000, fun _ => [], "2026-01-02"⟩ : Env)
        (⟨"GAS", 100, 70500, "2025-12-27", 7050000, 77550, 66975,
          PStatus.OPEN, 70500, 7050000, 0, 0, none, none, none⟩ : Position) =
        .sell c t ∧
      c.status = PStatus.CLOSED ∧ t.action = "SELL" := by
  have h := (exit_rules_spec
    (⟨fun _ => some 66000, fun _ => [], "2026-01-02"⟩ : Env)
    (⟨"GAS", 100, 70500, "2025-12-27", 7050000, 77550, 66975,
      PStatus.OPEN, 70500, 7050000, 0, 0, none, none, none⟩ : Position)
    rfl).2 (Or.inl (by
      rw [markPosition_current_price]
      norm_num))
  obtain ⟨c, t, hct, hc, -, -, -, ht, -⟩ := h
  exact ⟨c, t, hct, hc, ht⟩

/-- C9.  When the price fetch fails for an open position, the tick carries
the prior `current_price` forward unchanged, recomputes `current_value`,
`pnl` and `pnl_percent` from that carried price, and does not abort the
tick: both auto_trade and update_portfolio still complete and append their
history entry. -/
theorem stale_price_carried_forward (env : Env) (pos : Position)
    (hfail : env.price pos.symbol = none) :
    (markPosition env pos).current_price = pos.current_price ∧
    (markPosition env pos).current_value =
      pos.current_price * (pos.shares : ℚ) ∧
    (markPosition env pos).pnl =
      pos.current_price * (pos.shares : ℚ) - pos.buy_cost ∧
    (markPosition env pos).pnl_percent =
      (pos.current_price * (pos.shares : ℚ) - pos.buy_cost) /
        pos.buy_cost * 100 ∧
    (∀ p : Portfolio, ∃ h, (autoTrade env p).history = p.history ++ [h]) ∧
    (∀ p : Portfolio, ∃ h,
      (updatePortfolio env p).history = p.history ++ [h]) := by
  refine ⟨?_, ?_, ?_, ?_,
    fun p => ⟨_, autoTrade_history env p⟩, fun p => ⟨_, rfl⟩⟩ <;>
    simp [markPosition, hfail]

/-- C9 witness: a concrete position under an oracle that fails on every
symbol. -/
theorem stale_price_carried_forward_witness :
    (markPosition ⟨fun _ => none, fun _ => [], "2026-01-02"⟩
      ⟨"GAS", 100, 70500, "2025-12-27", 7050000, 77550, 66975, PStatus.OPEN,
        70500, 7050000, 0, 0, none, none, none⟩).current_price = 70500 :=
  (stale_price_carried_forward ⟨fun _ => none, fun _ => [], "2026-01-02"⟩
    ⟨"GAS", 100, 70500, "2025-12-27", 7050000, 77550, 66975, PStatus.OPEN,
      70500, 7050000, 0, 0, none, none, none⟩ rfl).1

/-- C10.  update_portfolio never changes cash, never appends a trade, never
opens or closes a position: it only rewrites the mark-to-market fields of
open positions, appends one history entry, and sets last_updated. -/
theorem update_portfolio_frame (env : Env) (p : Portfolio) :
    (updatePortfolio env p).cash = p.cash ∧
    (updatePortfolio env p).trades = p.trades ∧
    (updatePortfolio env p).closed_positions = p.closed_positions ∧
    (updatePortfolio env p).initial_budget = p.initial_budget ∧
    (updatePortfolio env p).last_updated = env.today ∧
    (∃ h, (updatePortfolio env p).history = p.history ++ [h]) ∧
    List.Forall₂ (fun pos pos' =>
      pos'.symbol = pos.symbol ∧ pos'.shares = pos.shares ∧
      pos'.buy_price = pos.buy_price ∧ pos'.buy_date = pos.buy_date ∧
      pos'.buy_cost = pos.buy_cost ∧ pos'.target = pos.target ∧
      pos'.stop_loss = pos.stop_loss ∧ pos'.status = pos.status ∧
      pos'.sell_price = pos.sell_price ∧ pos'.sell_date = pos.sell_date ∧
      pos'.final_pnl = pos.final_pnl ∧
      (pos.status ≠ PStatus.OPEN → pos' = pos) ∧
      (pos.status = PStatus.OPEN → pos' = markPosition env pos))
      p.positions (updatePortfolio env p).positions := by
  refine ⟨rfl, rfl, rfl, rfl, rfl, ⟨_, rfl⟩, ?_⟩
  show List.Forall₂ _ p.positions (p.positions.map fun pos =>
    if pos.status = PStatus.OPEN then markPosition env pos else pos)
  rw [List.forall₂_map_right_iff, List.forall₂_same]
  intro pos hpos
  by_cases hst : pos.status = PStatus.OPEN
  · rw [if_pos hst]
    exact ⟨rfl, rfl, rfl, rfl, rfl, rfl, rfl, rfl, rfl, rfl, rfl,
      fun hn => absurd hst hn, fun _ => rfl⟩
  · rw [if_neg hst]
    exact ⟨rfl, rfl, rfl, rfl, rfl, rfl, rfl, rfl, rfl, rfl, rfl,
      fun _ => rfl, fun hop => absurd hop hst⟩

/-- C8.  The signal bucket of _score_to_signal is determined exactly by:
score ≥ 50 → STRONG_BUY; 20 ≤ score < 50 → BUY; −20 < score < 20 → HOLD;
−50 < score ≤ −20 → SELL; score ≤ −50 → STRONG_SELL. -/
theorem score_to_signal_buckets (s : ℚ) :
    (scoreToSignal s = .STRONG_BUY ↔ 50 ≤ s) ∧
    (scoreToSignal s = .BUY ↔ 20 ≤ s ∧ s < 50) ∧
    (scoreToSignal s = .HOLD ↔ -20 < s ∧ s < 20) ∧
    (scoreToSignal s = .SELL ↔ -50 < s ∧ s ≤ -20) ∧
    (scoreToSignal s = .STRONG_SELL ↔ s ≤ -50) := by
  unfold scoreToSignal
  split_ifs with hb1 hb2 hb3 hb4 <;>
    refine ⟨⟨fun hq => ?_, fun hq => ?_⟩, ⟨fun hq => ?_, fun hq => ?_⟩,
      ⟨fun hq => ?_, fun hq => ?_⟩, ⟨fun hq => ?_, fun hq => ?_⟩,
      ⟨fun hq => ?_, fun hq => ?_⟩⟩ <;>
    simp_all <;> linarith

/-- C6 counterexample: at the snapshot price=110 > sma20=105 > sma50=100,
RSI 50, MACD bullish, analyze_stock's score is 60 — the UPTREND rule adds
+30 and the "above SMA20" +10 rule additionally fires — not the claimed
45 = (RSI rule 0) + (MACD rule +20) + (composite trend +25). -/
theorem trend_composite_counterexample :
    (110 : ℚ) > 105 ∧ (105 : ℚ) > 100 ∧
    trackerTrend 110 105 100 = "UPTREND" ∧
    trackerScore (trackerTrend 110 105 100) (some 50) true 110 105 = 60 ∧
    trackerScore (trackerTrend 110 105 100) (some 50) true 110 105 ≠
      (if (50 : ℚ) < 30 then (20 : ℤ) else if (50 : ℚ) > 70 then -20 else 0) +
        (if true then (20 : ℤ) else -10) + 25 := by
  refine ⟨by norm_num, by norm_num, ?_, ?_, ?_⟩ <;> decide

/-- C6 amended.  For every snapshot with price > sma20 > sma50: in the
tracker, the UPTREND rule adds +30 *and* the "above SMA20" +10 rule also
fires, a combined trend contribution of +40 on top of the RSI and MACD
rules; in the backend SMA block the contribution is +15 (sma20 > sma50)
plus +5 (price > sma20) = +20.  Neither engine produces "+25 as one
composite rule with the +10 rule suppressed". -/
theorem trend_composite_amended (price sma20 sma50 : ℚ) (rsi : Option ℚ)
    (mb : Bool) (h1 : price > sma20) (h2 : sma20 > sma50) :
    trackerScore (trackerTrend price sma20 sma50) rsi mb price sma20 =
      (match rsi with
        | none => (0 : ℤ)
        | some r => if r < 30 then 20 else if r > 70 then -20 else 0) +
      (if mb then 20 else -10) + 40 ∧
    smaCrossoverScore price sma20 sma50 = 20 := by
  constructor
  · have ht : trackerTrend price sma20 sma50 = "UPTREND" := by
      unfold trackerTrend
      rw [if_pos ⟨h1, h2⟩]
    rw [ht]
    unfold trackerScore
    dsimp only
    rw [if_pos h1]
    norm_num
    cases rsi <;> simp <;> ring
  · unfold smaCrossoverScore
    rw [if_pos h2, if_pos h1]
    norm_num

/-- C6 amended witness at the snapshot of the counterexample. -/
theorem trend_composite_amended_witness :
    (110 : ℚ) > 105 ∧ (105 : ℚ) > 100 ∧
    (trackerScore (trackerTrend 110 105 100) (some 50) true 110 105 =
      (if (50 : ℚ) < 30 then (20 : ℤ) else if (50 : ℚ) > 70 then -20 else 0) +
        (if true then (20 : ℤ) else -10) + 40 ∧
    smaCrossoverScore 110 105 100 = 20) :=
  ⟨by norm_num, by norm_num,
    trend_composite_amended 110 105 100 (some 50) true (by norm_num)
      (by norm_num)⟩

/-- A 20-bar close history (units of 1000 VND), mildly oscillating upward:
last close 20, RSI = 200/3, MACD bullish, last close above SMA20. -/
def cs20 : List ℚ :=
  [10, 11, 10, 12, 11, 13, 12, 14, 13, 15,
   14, 16, 15, 17, 16, 18, 17, 19, 18, 20]

/-- C5 counterexample: a 20-bar history has fewer than 50 bars, yet
portfolio_tracker.analyze_stock returns a full scored analysis for it
(its guard is `len < 20`, not `< 50`). -/
theorem short_history_scored_counterexample :
    cs20.length = 20 ∧ cs20.length < 50 ∧
    (trackerAnalyze "VNM" cs20).isSome = true := by
  refine ⟨by decide, by decide, ?_⟩
  rfl

/-- C5 amended.  The backend strategy.analyze_stock skips any symbol with
fewer than 50 bars; the tracker's analyze_stock skips only below 20 bars,
scores every history of ≥ 20 bars, and below 50 bars substitutes sma20 for
sma50. -/
theorem analyzability_guards_amended :
    (∀ (σ : Type) (bars : List ℚ) (mk : List ℚ → σ), bars.length < 50 →
      backendAnalyzeStock bars mk = none) ∧
    (∀ (s : String) (closes : List ℚ), closes.length < 20 →
      trackerAnalyze s closes = none) ∧
    (∀ (s : String) (closes : List ℚ), 20 ≤ closes.length →
      (trackerAnalyze s closes).isSome = true) ∧
    (∀ (s : String) (closes : List ℚ) (a : Analysis),
      trackerAnalyze s closes = some a → closes.length < 50 →
      a.sma50 = a.sma20) := by
  refine ⟨?_, ?_, ?_, ?_⟩
  · intro σ bars mk h
    unfold backendAnalyzeStock
    rw [if_pos h]
  · intro s closes h
    unfold trackerAnalyze
    rw [if_pos h]
  · intro s closes h
    unfold trackerAnalyze
    rw [if_neg (by omega)]
    rfl
  · intro s closes a ha h50
    unfold trackerAnalyze at ha
    split at ha
    · simp at ha
    · obtain rfl := (Option.some.inj ha).symm
      dsimp only
      rw [if_neg (by omega)]

/-- C5 amended witness at concrete histories. -/
theorem analyzability_guards_amended_witness :
    cs20.length < 50 ∧
    @backendAnalyzeStock SignalStrength cs20 (fun _ => SignalStrength.HOLD) =
      none ∧
    trackerAnalyze "VNM" [] = none ∧
    (trackerAnalyze "VNM" cs20).isSome = true :=
  ⟨by decide,
   analyzability_guards_amended.1 SignalStrength cs20 _ (by decide),
   analyzability_guards_amended.2.1 "VNM" [] (by decide),
   analyzability_guards_amended.2.2.1 "VNM" cs20 (by decide)⟩

/-! ### Closed forms for the EWM kernel on constant-then-jump series

These characterize `emaAt`/`emaSeries` on `replicate n c ++ [d]` histories,
which is what the concrete counterexample environments below use. -/

/-- The adjusted-EWM weight list `(1-α)^0, …, (1-α)^(n-1)`. -/
def emaWeights (span n : ℕ) : List ℚ :=
  (List.range n).map (fun i => (1 - 2 / ((span : ℚ) + 1)) ^ i)

theorem emaAt_eq (span : ℕ) (xs : List ℚ) :
    emaAt span xs =
      (List.zipWith (fun w x => w * x) (emaWeights span xs.length)
        xs.reverse).sum / (emaWeights span xs.length).sum := rfl

theorem emaRatio_nonneg {span : ℕ} (hs : 1 ≤ span) :
    0 ≤ 1 - 2 / ((span : ℚ) + 1) := by
  have h2 : (2 : ℚ) ≤ (span : ℚ) + 1 := by
    have : (1 : ℚ) ≤ (span : ℚ) := by exact_mod_cast hs
    linarith
  have := div_le_one_of_le₀ h2 (by positivity)
  linarith

theorem emaWeights_succ (span n : ℕ) :
    emaWeights span (n + 1) =
      1 :: (List.range n).map (fun i => (1 - 2 / ((span : ℚ) + 1)) ^ (i + 1)) := by
  unfold emaWeights
  rw [List.range_succ_eq_map, List.map_cons, List.map_map]
  simp [Function.comp_def, pow_succ]

theorem emaWeights_sum_nonneg {span n : ℕ} (hs : 1 ≤ span) :
    0 ≤ (emaWeights span n).sum := by
  apply List.sum_nonneg
  intro x hx
  obtain ⟨i, _, rfl⟩ := List.mem_map.mp hx
  exact pow_nonneg (emaRatio_nonneg hs) i

theorem emaWeights_sum_pos {span n : ℕ} (hs : 1 ≤ span) (hn : 0 < n) :
    0 < (emaWeights span n).sum := by
  obtain ⟨m, rfl⟩ : ∃ m, n = m + 1 := ⟨n - 1, by omega⟩
  rw [emaWeights_succ, List.sum_cons]
  have h0 : 0 ≤ ((List.range m).map
      (fun i => (1 - 2 / ((span : ℚ) + 1)) ^ (i + 1))).sum := by
    apply List.sum_nonneg
    intro x hx
    obtain ⟨i, _, rfl⟩ := List.mem_map.mp hx
    exact pow_nonneg (emaRatio_nonneg hs) _
  linarith

theorem zipWith_mul_replicate_right :
    ∀ (l : List ℚ) (c : ℚ),
      List.zipWith (fun w x => w * x) l (List.replicate l.length c) =
        l.map (· * c)
  | [], _ => rfl
  | w :: l, c => by
      simpa [List.replicate_succ] using zipWith_mul_replicate_right l c

theorem sum_map_mul_const (l : List ℚ) (c : ℚ) :
    (l.map (· * c)).sum = l.sum * c := by
  simpa using List.sum_map_mul_right l id c

theorem emaWeights_length (span n : ℕ) : (emaWeights span n).length = n := by
  simp [emaWeights]

theorem emaAt_replicate {span : ℕ} (n : ℕ) (c : ℚ) (hs : 1 ≤ span)
    (hn : 0 < n) : emaAt span (List.replicate n c) = c := by
  rw [emaAt_eq]
  rw [List.length_replicate, List.reverse_replicate]
  rw [show List.replicate n c = List.replicate (emaWeights span n).length c by
    rw [emaWeights_length]]
  rw [zipWith_mul_replicate_right, sum_map_mul_const]
  exact mul_div_cancel_left₀ c (ne_of_gt (emaWeights_sum_pos hs hn))

theorem emaAt_replicate_concat {span : ℕ} (n : ℕ) (c d : ℚ) (hs : 1 ≤ span) :
    emaAt span (List.replicate n c ++ [d]) =
      c + (d - c) / (emaWeights span (n + 1)).sum := by
  have hlen : (List.replicate n c ++ [d]).length = n + 1 := by simp
  rw [emaAt_eq, hlen]
  rw [show (List.replicate n c ++ [d]).reverse = d :: List.replicate n c by
    simp]
  rw [emaWeights_succ]
  rw [List.zipWith_cons_cons]
  rw [show List.replicate n c = List.replicate
      ((List.range n).map
        (fun i => (1 - 2 / ((span : ℚ) + 1)) ^ (i + 1))).length c by simp]
  rw [zipWith_mul_replicate_right]
  simp only [List.sum_cons, sum_map_mul_const, one_mul]
  have hW : (0:ℚ) ≤ ((List.range n).map
      (fun i => (1 - 2 / ((span : ℚ) + 1)) ^ (i + 1))).sum :=
    List.sum_nonneg (fun x hx => by
      obtain ⟨i, _, rfl⟩ := List.mem_map.mp hx
      exact pow_nonneg (emaRatio_nonneg hs) _)
  have hne : 1 + ((List.range n).map
      (fun i => (1 - 2 / ((span : ℚ) + 1)) ^ (i + 1))).sum ≠ 0 :=
    ne_of_gt (by linarith)
  have key : ∀ W : ℚ, 1 + W ≠ 0 →
      (d + W * c) / (1 + W) = c + (d - c) / (1 + W) := by
    intro W hW'
    field_simp
    ring
  exact key _ hne

theorem take_replicate_concat {n t : ℕ} (c : ℚ) (d : ℚ) (h : t ≤ n) :
    (List.replicate n c ++ [d]).take t = List.replicate t c := by
  rw [List.take_append_of_le_length (by simpa using h), List.take_replicate]
  rw [Nat.min_eq_left h]

theorem emaSeries_replicate_concat {span : ℕ} (n : ℕ) (c d : ℚ)
    (hs : 1 ≤ span) :
    emaSeries span (List.replicate n c ++ [d]) =
      List.replicate n c ++ [emaAt span (List.replicate n c ++ [d])] := by
  unfold emaSeries
  rw [show (List.replicate n c ++ [d]).length = n + 1 by simp, List.range_succ]
  rw [List.map_append]
  congr 1
  · rw [List.eq_replicate_iff]
    refine ⟨by rw [List.length_map, List.length_range], ?_⟩
    intro b hb
    obtain ⟨t, ht, rfl⟩ := List.mem_map.mp hb
    rw [List.mem_range] at ht
    rw [take_replicate_concat c d (by omega)]
    exact emaAt_replicate (t + 1) c hs (by omega)
  · rw [List.map_singleton]
    have htake : (List.replicate n c ++ [d]).take (n + 1) =
        List.replicate n c ++ [d] :=
      List.take_of_length_le (by simp)
    rw [htake]

theorem diffSeries_cons_cons (a b : ℚ) (t : List ℚ) :
    diffSeries (a :: b :: t) = (b - a) :: diffSeries (b :: t) := rfl

theorem diffSeries_replicate_concat : ∀ (n : ℕ) (c d : ℚ), 1 ≤ n →
    diffSeries (List.replicate n c ++ [d]) =
      List.replicate (n - 1) 0 ++ [d - c] := by
  intro n
  induction n with
  | zero => intro c d h; omega
  | succ m ih =>
      intro c d _
      cases m with
      | zero => simp [diffSeries]
      | succ k =>
          rw [List.replicate_succ, List.cons_append]
          rw [List.replicate_succ, List.cons_append, diffSeries_cons_cons]
          rw [← List.cons_append, ← List.replicate_succ]
          rw [ih c d (by omega)]
          simp [List.replicate_succ]

theorem meanLast_replicate_concat (n t : ℕ) (c d : ℚ) (h1 : 1 ≤ t)
    (h2 : t ≤ n + 1) :
    meanLast t (List.replicate n c ++ [d]) =
      (((t - 1 : ℕ) : ℚ) * c + d) / (t : ℚ) := by
  unfold meanLast
  rw [show (List.replicate n c ++ [d]).length = n + 1 by simp]
  rw [show List.replicate n c =
      List.replicate (n + 1 - t) c ++ List.replicate (t - 1) c by
    rw [← List.replicate_add]; congr 1; omega]
  rw [List.append_assoc, List.drop_left' (by simp)]
  rw [List.sum_append, List.sum_replicate, List.sum_cons, List.sum_nil]
  rw [nsmul_eq_mul]
  ring_nf

/-- A 50-bar close history (units of 1000 VND): 49 bars at 10, one jump to
30.  Uptrending (price > sma20 > sma50), RSI 100, MACD bullish; the
tracker scores it +40. -/
def cs50 : List ℚ := List.replicate 49 10 ++ [30]

/-- The analysis the tracker produces for `cs50`. -/
def analysisGF (s : String) : Analysis :=
  ⟨s, 30000, some 100, 11000, 10400, "UPTREND", true, 40⟩

theorem S12_lt_S26 : (emaWeights 12 50).sum < (emaWeights 26 50).sum := by
  unfold emaWeights
  apply List.sum_lt_sum
  · intro i _
    apply pow_le_pow_left₀ (by push_cast; norm_num) (by push_cast; norm_num) i
  · exact ⟨1, by simp, by push_cast; norm_num⟩

theorem one_lt_S9 : 1 < (emaWeights 9 50).sum := by
  rw [show (50 : ℕ) = 49 + 1 from rfl, emaWeights_succ, List.sum_cons]
  have hpos : 0 < ((List.range 49).map
      (fun i => (1 - 2 / (((9 : ℕ) : ℚ) + 1)) ^ (i + 1))).sum := by
    apply List.sum_pos
    · intro x hx
      obtain ⟨i, _, rfl⟩ := List.mem_map.mp hx
      apply pow_pos (by push_cast; norm_num)
    · simp
  linarith

theorem rsiLast_cs50 : rsiLast cs50 = some 100 := by
  unfold rsiLast
  dsimp only
  rw [show diffSeries cs50 = List.replicate 48 0 ++ [20] by
    rw [cs50, diffSeries_replicate_concat 49 10 30 (by norm_num)]; norm_num]
  have hgains : (List.replicate 48 (0:ℚ) ++ [20]).map (fun d => max d 0) =
      List.replicate 48 0 ++ [20] := by
    rw [List.map_append, List.map_replicate]
    simp [max_eq_left (by norm_num : (0:ℚ) ≤ 20)]
  have hlosses : (List.replicate 48 (0:ℚ) ++ [20]).map (fun d => max (-d) 0) =
      List.replicate 48 0 ++ [0] := by
    rw [List.map_append, List.map_replicate]
    simp [max_eq_right (by norm_num : (-20:ℚ) ≤ 0)]
  rw [hgains, hlosses]
  rw [meanLast_replicate_concat 48 14 0 20 (by norm_num) (by norm_num)]
  rw [meanLast_replicate_concat 48 14 0 0 (by norm_num) (by norm_num)]
  norm_num

theorem macd_cs50 :
    List.zipWith (fun a b => a - b) (emaSeries 12 cs50) (emaSeries 26 cs50) =
      List.replicate 49 0 ++ [emaAt 12 cs50 - emaAt 26 cs50] := by
  conv_lhs => rw [cs50, emaSeries_replicate_concat 49 10 30 (by norm_num),
    emaSeries_replicate_concat 49 10 30 (by norm_num)]
  rw [List.zipWith_append _ _ _ _ _ (by simp)]
  rw [cs50]
  simp

theorem emaAt12_cs50 :
    emaAt 12 cs50 = 10 + 20 / (emaWeights 12 50).sum := by
  conv_lhs => rw [cs50, emaAt_replicate_concat 49 10 30 (by norm_num)]
  norm_num

theorem emaAt26_cs50 :
    emaAt 26 cs50 = 10 + 20 / (emaWeights 26 50).sum := by
  conv_lhs => rw [cs50, emaAt_replicate_concat 49 10 30 (by norm_num)]
  norm_num

theorem macdJump_pos : 0 < emaAt 12 cs50 - emaAt 26 cs50 := by
  rw [emaAt12_cs50, emaAt26_cs50]
  have h12 : (0:ℚ) < (emaWeights 12 50).sum :=
    emaWeights_sum_pos (by norm_num) (by norm_num)
  have hlt := S12_lt_S26
  have := div_lt_div_of_pos_left (show (0:ℚ) < 20 by norm_num) h12 hlt
  linarith

theorem mb_cs50 :
    decide ((emaSeries 9 (List.zipWith (fun a b => a - b)
        (emaSeries 12 cs50) (emaSeries 26 cs50))).getLast?.getD 0 <
      (List.zipWith (fun a b => a - b) (emaSeries 12 cs50)
        (emaSeries 26 cs50)).getLast?.getD 0) = true := by
  rw [macd_cs50]
  rw [emaSeries_replicate_concat 49 0 _ (by norm_num)]
  rw [List.getLast?_concat, List.getLast?_concat]
  simp only [Option.getD_some]
  apply decide_eq_true
  rw [emaAt_replicate_concat 49 0 _ (by norm_num)]
  have hm := macdJump_pos
  have h9 := one_lt_S9
  have := div_lt_self hm (show (1:ℚ) <
    (emaWeights 9 (49 + 1)).sum from one_lt_S9)
  simpa using this

theorem trackerAnalyze_cs50 (s : String) :
    trackerAnalyze s cs50 = some (analysisGF s) := by
  unfold trackerAnalyze
  rw [if_neg (by simp [cs50])]
  dsimp only
  have hprice : cs50.getLast?.getD 0 * 1000 = (30000 : ℚ) := by
    rw [cs50, List.getLast?_concat]
    norm_num
  have hlen50 : (50 : ℕ) ≤ cs50.length := by simp [cs50]
  have hsma20 : meanLast 20 cs50 * 1000 = (11000 : ℚ) := by
    rw [cs50, meanLast_replicate_concat 49 20 10 30 (by norm_num)
      (by norm_num)]
    norm_num
  have hsma50 : meanLast 50 cs50 * 1000 = (10400 : ℚ) := by
    rw [cs50, meanLast_replicate_concat 49 50 10 30 (by norm_num)
      (by norm_num)]
    norm_num
  rw [hprice, rsiLast_cs50, hsma20, if_pos hlen50, hsma50, mb_cs50]
  rw [show trackerTrend 30000 11000 10400 = "UPTREND" by
    unfold trackerTrend; rw [if_pos (by norm_num)]]
  rw [show trackerScore "UPTREND" (some 100) true 30000 11000 = 40 by
    unfold trackerScore; norm_num]
  rfl

/-- A concrete tick environment: GAS and FPT both return the `cs50` history
(hence identical analyses and tied scores); every other symbol has no data;
live price fetches fail (no open positions anyway). -/
def envGF : Env :=
  ⟨fun _ => none,
   fun s => if s = "GAS" ∨ s = "FPT" then cs50 else [], "2026-01-02"⟩

theorem trackerAnalyze_nil (s : String) : trackerAnalyze s [] = none := by
  unfold trackerAnalyze
  rw [if_pos (by norm_num)]

theorem buyCandidates_envGF (cash : ℚ) (hc : (3000000 : ℚ) ≤ cash) :
    buyCandidates envGF cash = [analysisGF "GAS", analysisGF "FPT"] := by
  unfold buyCandidates WATCHLIST
  simp only [List.filterMap_cons, List.filterMap_nil]
  simp only [show envGF.closes "GAS" = cs50 from rfl,
    show envGF.closes "FPT" = cs50 from rfl,
    show envGF.closes "VNM" = [] from rfl,
    show envGF.closes "MWG" = [] from rfl,
    show envGF.closes "HPG" = [] from rfl,
    show envGF.closes "VCB" = [] from rfl,
    show envGF.closes "TCB" = [] from rfl,
    show envGF.closes "VHM" = [] from rfl,
    show envGF.closes "VIC" = [] from rfl,
    show envGF.closes "MSN" = [] from rfl,
    trackerAnalyze_cs50, trackerAnalyze_nil]
  rw [if_pos (show (analysisGF "GAS").price * 100 ≤ cash ∧
      (analysisGF "GAS").score ≥ 30 from
    ⟨by simp only [analysisGF]; linarith, by decide⟩)]
  rw [if_pos (show (analysisGF "FPT").price * 100 ≤ cash ∧
      (analysisGF "FPT").score ≥ 30 from
    ⟨by simp only [analysisGF]; linarith, by decide⟩)]

theorem fbo_envGF (cash : ℚ) (hc : (3000000 : ℚ) ≤ cash) :
    findBuyOpportunities envGF cash =
      [analysisGF "GAS", analysisGF "FPT"] := by
  rw [findBuyOpportunities, buyCandidates_envGF cash hc]
  apply List.mergeSort_of_sorted
  apply List.pairwise_cons.mpr
  refine ⟨?_, List.pairwise_singleton _ _⟩
  intro b hb
  obtain rfl := List.mem_singleton.mp hb
  decide

/-- An empty portfolio with the given cash, as loaded at tick start. -/
def pEmpty (c : ℚ) : Portfolio := ⟨c, c, [], [], [], [], "2025-12-31"⟩

theorem exitPhase_pEmpty (c : ℚ) : exitPhase envGF (pEmpty c) = pEmpty c :=
  rfl

theorem buyPhase_pEmpty (c : ℚ) (h1 : (5000000 : ℚ) ≤ c)
    (h2 : (3000000 : ℚ) ≤ c) :
    (buyPhase envGF (pEmpty c)).positions =
      [newBuyPosition (analysisGF "GAS") "2026-01-02"] := by
  unfold buyPhase
  dsimp only
  rw [if_pos (show (pEmpty c).cash ≥ 5000000 by
    simp only [pEmpty]; linarith)]
  rw [show (pEmpty c).cash = c from rfl, fbo_envGF c h2]
  rw [show ((pEmpty c).positions.filter
      (fun q => q.status = PStatus.OPEN)).map Position.symbol = [] from rfl]
  simp only [List.filter_cons, List.filter_nil, List.not_mem_nil,
    not_false_iff, decide_eq_true_eq, if_pos]
  rw [if_pos (show (analysisGF "GAS").price * 100 ≤ c by
    simp only [analysisGF]; linarith)]
  rfl

/-- C7 counterexample: GAS and FPT carry identical price histories, so the
candidate analyses are tied at score 40; the engine's stable sort keeps
watchlist order (GAS before FPT) and the tick buys GAS — not FPT, the
lexicographically smaller symbol the claim predicts. -/
theorem tiebreak_counterexample :
    (trackerAnalyze "GAS" (envGF.closes "GAS")).map Analysis.score =
      some 40 ∧
    (trackerAnalyze "FPT" (envGF.closes "FPT")).map Analysis.score =
      some 40 ∧
    (autoTrade envGF (pEmpty 6000000)).positions.map Position.symbol =
      ["GAS"] ∧
    ("FPT" : String) < "GAS" := by
  refine ⟨?_, ?_, ?_, ?_⟩
  · rw [show envGF.closes "GAS" = cs50 from rfl, trackerAnalyze_cs50]
    rfl
  · rw [show envGF.closes "FPT" = cs50 from rfl, trackerAnalyze_cs50]
    rfl
  · show (buyPhase envGF (exitPhase envGF (pEmpty 6000000))).positions.map
      Position.symbol = _
    rw [exitPhase_pEmpty, buyPhase_pEmpty 6000000 (by norm_num) (by norm_num)]
    rfl
  · rw [String.lt_iff_toList_lt]
    exact List.Lex.rel (by decide)

/-- C7 amended.  find_buy_opportunities ranks candidates by score
descending, with ties broken by *watchlist order* (Python's sort is
stable), not lexicographically: the result is a permutation of the
candidate list, sorted by score descending, and any two candidates in
watchlist order whose scores are tied (or decreasing) keep their relative
order.  Hence among tied top scores the engine picks the candidate
earliest in the watchlist. -/
theorem ranking_stable_amended (env : Env) (cash : ℚ) :
    List.Perm (findBuyOpportunities env cash) (buyCandidates env cash) ∧
    (findBuyOpportunities env cash).Pairwise
      (fun a b => b.score ≤ a.score) ∧
    (∀ a b : Analysis, b.score ≤ a.score →
      List.Sublist [a, b] (buyCandidates env cash) →
      List.Sublist [a, b] (findBuyOpportunities env cash)) := by
  have htrans : ∀ a b c : Analysis,
      (fun x y => decide (y.score ≤ x.score)) a b →
      (fun x y => decide (y.score ≤ x.score)) b c →
      (fun x y => decide (y.score ≤ x.score)) a c := by
    intro a b c hab hbc
    simp only [decide_eq_true_eq] at *
    exact le_trans hbc hab
  have htotal : ∀ a b : Analysis,
      ((fun x y => decide (y.score ≤ x.score)) a b ||
       (fun x y => decide (y.score ≤ x.score)) b a) = true := by
    intro a b
    simp only [Bool.or_eq_true, decide_eq_true_eq]
    exact le_total b.score a.score
  refine ⟨List.mergeSort_perm _ _, ?_, ?_⟩
  · have h := List.sorted_mergeSort htrans htotal (buyCandidates env cash)
    exact h.imp (fun hb => by simpa using hb)
  · intro a b hab hsub
    exact List.pair_sublist_mergeSort htrans htotal
      (by simpa using hab) hsub

/-- C7 amended witness: with the tied GAS/FPT candidates of the
counterexample environment, the watchlist-ordered pair survives the sort. -/
theorem ranking_stable_amended_witness :
    (analysisGF "FPT").score ≤ (analysisGF "GAS").score ∧
    List.Sublist [analysisGF "GAS", analysisGF "FPT"]
      (findBuyOpportunities envGF 6000000) :=
  ⟨by decide,
   (ranking_stable_amended envGF 6000000).2.2 _ _ (by decide)
     (by rw [buyCandidates_envGF 6000000 (by norm_num)])⟩

/-- C4 counterexample: with cash 20,000,000 VND and price 30,000 VND the
claimed formula gives ⌊⌊20000000/30000⌋/100⌋·100 = 600 shares, but the
tick's entry buys exactly one minimum lot of 100 shares. -/
theorem entry_lot_counterexample :
    (pEmpty 20000000).cash = 20000000 ∧
    (autoTrade envGF (pEmpty 20000000)).positions.map Position.shares =
      [100] ∧
    (autoTrade envGF (pEmpty 20000000)).positions.map Position.buy_price =
      [30000] ∧
    (Int.fdiv ⌊(20000000 : ℚ) / 30000⌋ 100) * 100 = 600 ∧
    (100 : ℤ) ≠ 600 := by
  have hpos : (autoTrade envGF (pEmpty 20000000)).positions =
      [newBuyPosition (analysisGF "GAS") "2026-01-02"] := by
    show (buyPhase envGF (exitPhase envGF (pEmpty 20000000))).positions = _
    rw [exitPhase_pEmpty, buyPhase_pEmpty 20000000 (by norm_num) (by norm_num)]
  refine ⟨rfl, ?_, ?_, ?_, by decide⟩
  · rw [hpos]; rfl
  · rw [hpos]; rfl
  · rw [show ⌊(20000000 : ℚ) / 30000⌋ = 666 by
      rw [show (20000000 : ℚ) / 30000 = 2000 / 3 by norm_num]
      rw [Int.floor_eq_iff]
      norm_num]
    decide

/-- C4 amended.  Every entry the tracker's scan opens is exactly one
minimum lot of 100 shares, affordable from cash; the floor-based sizing
formula of the claim lives only in strategy.calculate_position_size, which
for positive inputs returns ⌊⌊(cash/n)/price⌋/100⌋·100 — and 0 (no entry)
when that is below one lot. -/
theorem entry_sizing_amended :
    (∀ (env : Env) (p : Portfolio),
      (buyPhase env p).positions = p.positions ∨
      ∃ best, best ∈ buyCandidates env p.cash ∧
        best.price * 100 ≤ p.cash ∧
        (buyPhase env p).positions =
          p.positions ++ [newBuyPosition best env.today] ∧
        (newBuyPosition best env.today).shares = 100 ∧
        (buyPhase env p).cash = p.cash - best.price * 100) ∧
    (∀ (cash price : ℚ) (n : ℕ), 0 ≤ cash → 0 < price → 0 < n →
      calculatePositionSize cash price n =
        (if 100 ≤ (Int.fdiv ⌊cash / (n : ℚ) / price⌋ 100) * 100
          then (Int.fdiv ⌊cash / (n : ℚ) / price⌋ 100) * 100 else 0)) := by
  constructor
  · intro env p
    rcases buyPhase_spec env p with h | ⟨best, hmem, hnotin, hcost, hcash, h⟩
    · exact Or.inl (by rw [h])
    · refine Or.inr ⟨best, hmem, hcost, by rw [h], rfl, by rw [h]⟩
  · intro cash price n h1 h2 h3
    unfold calculatePositionSize ratTrunc
    dsimp only
    have hnn : ¬ (cash / (n : ℚ) / price < 0) := by
      push_neg
      positivity
    rw [if_neg hnn]
    split
    · next h => exact max_eq_left h
    · rfl

/-- C4 amended witness at the counterexample's numbers. -/
theorem entry_sizing_amended_witness :
    (0 : ℚ) ≤ 20000000 ∧ (0 : ℚ) < 30000 ∧ (0 : ℕ) < 1 ∧
    calculatePositionSize 20000000 30000 1 =
      (if 100 ≤ (Int.fdiv ⌊(20000000 : ℚ) / ((1 : ℕ) : ℚ) / 30000⌋ 100) * 100
        then (Int.fdiv ⌊(20000000 : ℚ) / ((1 : ℕ) : ℚ) / 30000⌋ 100) * 100
        else 0) :=
  ⟨by norm_num, by norm_num, by norm_num,
    entry_sizing_amended.2 20000000 30000 1 (by norm_num) (by norm_num)
      (by norm_num)⟩

end VST
